import Mathlib

/-!
Verification of `src/flask_sqlalchemy/base.py`.

The module under verification has three parts:

* `camel_to_snake_case` — a regex-based `CamelCase` to `snake_case` converter,
* `should_set_tablename` — a decision procedure over a candidate class and its
  method-resolution-order (MRO) ancestor chain,
* `NameMixin.__tablename__` — a declared-attr hook generating a table name when
  a primary-key attribute named `id` is found by attribute lookup,
* `Base.__repr__` — a diagnostic formatter over the persistence state of an
  entity instance.

Strings are modelled as lists of Unicode code points (`List Nat`), matching
Python strings, which are sequences of code points.  The regex character
classes `[a-z]`, `[A-Z]`, `[0-9]` and the `str.lower` action on that range are
modelled over the ASCII code points the regex mentions.  Classes are modelled
as descriptor records carrying exactly the attributes the source consults, and
an MRO is a list of descriptors, most derived first; the Python identity test
`base is cls` holds exactly for the head of the MRO, since a Python MRO lists
each class once, the class itself first.
-/

/-- Code points of a Lean string, used to write concrete Python strings. -/
def strCodes (s : String) : List Nat :=
  s.toList.map Char.toNat

/-- A Python string: a sequence of Unicode code points. -/
abbrev PyStr := List Nat

/-- Regex class `[a-z]`. -/
def isLowerCode (c : Nat) : Bool :=
  97 ≤ c && c ≤ 122

/-- Regex class `[A-Z]`. -/
def isUpperCode (c : Nat) : Bool :=
  65 ≤ c && c ≤ 90

/-- Regex class `[0-9]`. -/
def isDigitCode (c : Nat) : Bool :=
  48 ≤ c && c ≤ 57

/-- `str.lower` on one code point, for the ASCII range the regex operates on:
uppercase `A`–`Z` maps to `a`–`z`, anything else is unchanged. -/
def lowerCode (c : Nat) : Nat :=
  if isUpperCode c then c + 32 else c

/-- The substitution
`re.sub(r"((?<=[a-z0-9])[A-Z]|(?!^)[A-Z](?=[a-z]))", r"_\1", name)`.
Every match is a single uppercase code point; the lookbehind `(?<=[a-z0-9])`
inspects the previous code point of the original string, `(?!^)` requires a
previous code point to exist, and the lookahead `(?=[a-z])` inspects the next
code point.  The scan is left to right, each match consuming one code point,
so the substitution is a per-code-point transformation carrying the previous
original code point along. -/
def camel_sub : Option Nat → List Nat → List Nat
  | _, [] => []
  | prev, c :: rest =>
    let prevLowerDigit : Bool :=
      match prev with
      | some p => isLowerCode p || isDigitCode p
      | none => false
    let nextLower : Bool :=
      match rest with
      | d :: _ => isLowerCode d
      | [] => false
    let m : Bool := isUpperCode c && (prevLowerDigit || (prev.isSome && nextLower))
    (if m then [95, c] else [c]) ++ camel_sub (some c) rest

/-- `camel_to_snake_case(name)`: the substitution above, then `.lower()`,
then `.lstrip("_")` (drop every leading underscore, code point 95). -/
def camel_to_snake_case (name : PyStr) : PyStr :=
  ((camel_sub none name).map lowerCode).dropWhile (fun c => c == 95)

/-- The kind of a `__tablename__` entry found in a class dictionary:
a `sqlalchemy.orm.declared_attr` (deferred, computed per subclass), or any
other (concrete) value. -/
inductive TMDecl where
  | deferredAttr : TMDecl
  | concreteVal : TMDecl
deriving DecidableEq

/-- Descriptor of one Python class, carrying exactly the attributes the source
consults on each member of an MRO:

* `name` — `cls.__name__`;
* `isAbstract` — truthiness of `cls.__dict__.get("__abstract__", False)`;
* `tablename` — whether `"__tablename__" in cls.__dict__`, and if so whether
  that entry is a `declared_attr` or a concrete value;
* `isMapped` — `isinstance(cls, sa.orm.DeclarativeMeta)`;
* `idAttr` — whether `"id"` is in the class own dictionary, and if so the
  truthiness of `getattr(that_object, "primary_key", False)`. -/
structure ClsDesc where
  name : PyStr
  isAbstract : Bool
  tablename : Option TMDecl
  isMapped : Bool
  idAttr : Option Bool
deriving DecidableEq

/-- The `for base in cls.__mro__` loop of `should_set_tablename`.  Each entry
pairs a descriptor with the result of the identity test `base is cls`, which
holds exactly for the head of the MRO.  A base whose dictionary lacks
`__tablename__` is skipped; a `declared_attr` entry returns `False`; a
concrete entry returns
`not (base is cls or base.__dict__.get("__abstract__", False) or not isinstance(base, DeclarativeMeta))`;
falling off the loop returns `True`. -/
def mro_walk : List (ClsDesc × Bool) → Bool
  | [] => true
  | (base, isSelf) :: rest =>
    match base.tablename with
    | none => mro_walk rest
    | some TMDecl.deferredAttr => false
    | some TMDecl.concreteVal => !(isSelf || base.isAbstract || !base.isMapped)

/-- `should_set_tablename(cls)`.  `cls` is the head of the MRO and `ancestors`
is `cls.__mro__[1:]`.  First the screen:
`cls.__dict__.get("__abstract__", False) or not any(isinstance(b, DeclarativeMeta) for b in cls.__mro__[1:])`
returns `False`; otherwise the loop over the full MRO runs. -/
def should_set_tablename (cls : ClsDesc) (ancestors : List ClsDesc) : Bool :=
  if cls.isAbstract || !(ancestors.any fun a => a.isMapped) then false
  else mro_walk ((cls, true) :: ancestors.map fun a => (a, false))

/-- Attribute lookup of `"id"` through an MRO: `hasattr(cls, "id")` holds when
some class of the MRO has `"id"` in its dictionary, and `getattr(cls, "id")`
yields the entry of the first such class; the result is the truthiness of
`getattr(cls.id, "primary_key", False)` there. -/
def lookup_id : List ClsDesc → Option Bool
  | [] => none
  | c :: rest =>
    match c.idAttr with
    | some pk => some pk
    | none => lookup_id rest

/-- The `NameMixin.__tablename__` declared-attr hook:
`if hasattr(cls, "id") and getattr(cls.id, "primary_key", False): return camel_to_snake_case(cls.__name__) else: return None`.
`cls` is the head of the MRO and `ancestors` is `cls.__mro__[1:]`. -/
def NameMixin_tablename (cls : ClsDesc) (ancestors : List ClsDesc) : Option PyStr :=
  match lookup_id (cls :: ancestors) with
  | some true => some (camel_to_snake_case cls.name)
  | _ => none

/-- A primary-key component value; `str()` of an int is its decimal form, of a
string the string itself. -/
inductive PyVal where
  | int : Int → PyVal
  | str : String → PyVal
deriving DecidableEq

/-- Python `str()` on a primary-key component. -/
def pyStr : PyVal → String
  | PyVal.int n => toString n
  | PyVal.str s => s

/-- Persistence state of an entity instance as reported by `sa.inspect`:
`transient` and `pending` carry the in-memory handle `id(self)`, `persisted`
carries the identity tuple `state.identity` in declared key order. -/
inductive InstState where
  | transient : Nat → InstState
  | pending : Nat → InstState
  | persisted : List PyVal → InstState
deriving DecidableEq

/-- An entity instance as `Base.__repr__` sees it: the class name
`type(self).__name__`, the table name of its class (present for the
independence statement; the formatter never reads it), and the persistence
state. -/
structure Entity where
  className : String
  tablename : Option String
  state : InstState
deriving DecidableEq

/-- `Base.__repr__`:
transient gives `pk = f"(transient {id(self)})"`, pending gives
`pk = f"(pending {id(self)})"`, otherwise
`pk = ", ".join(map(str, state.identity))`; the result is
`f"<{type(self).__name__} {pk}>"`. -/
def Base_repr (e : Entity) : String :=
  let pk : String :=
    match e.state with
    | InstState.transient h => "(transient " ++ toString h ++ ")"
    | InstState.pending h => "(pending " ++ toString h ++ ")"
    | InstState.persisted ident => String.intercalate ", " (ident.map pyStr)
  "<" ++ e.className ++ " " ++ pk ++ ">"

/-- A class declaring no `id` of its own (counterexample input for the hook). -/
def childDesc : ClsDesc :=
  { name := strCodes "Child"
    isAbstract := false
    tablename := none
    isMapped := true
    idAttr := none }

/-- An ancestor class declaring a primary-key `id` of its own. -/
def parentDesc : ClsDesc :=
  { name := strCodes "Parent"
    isAbstract := false
    tablename := none
    isMapped := true
    idAttr := some true }

/-- A class `UserAccount` with its own primary-key `id` and no ancestors that
declare anything. -/
def userAccountDesc : ClsDesc :=
  { name := strCodes "UserAccount"
    isAbstract := false
    tablename := none
    isMapped := true
    idAttr := some true }

/-- A class marked abstract. -/
def abstractDesc : ClsDesc :=
  { name := strCodes "AbstractModel"
    isAbstract := true
    tablename := none
    isMapped := true
    idAttr := none }

/-- A class that is not a persistence-mapped type. -/
def unmappedDesc : ClsDesc :=
  { name := strCodes "PlainMixin"
    isAbstract := false
    tablename := none
    isMapped := false
    idAttr := none }

/-- A mapped, non-abstract ancestor with a concrete `__tablename__` entry. -/
def namedParentDesc : ClsDesc :=
  { name := strCodes "NamedParent"
    isAbstract := false
    tablename := some TMDecl.concreteVal
    isMapped := true
    idAttr := some true }

/-- A class with a `declared_attr` entry for `__tablename__` in its own
dictionary. -/
def deferredDesc : ClsDesc :=
  { name := strCodes "DeferredName"
    isAbstract := false
    tablename := some TMDecl.deferredAttr
    isMapped := true
    idAttr := some true }

/-- A persisted entity whose class maps to table `users_one`. -/
def entityA : Entity :=
  ⟨"User", some "users_one", InstState.persisted [PyVal.int 1]⟩

/-- An entity equal to `entityA` except for the table name of its class. -/
def entityB : Entity :=
  ⟨"User", some "users_two", InstState.persisted [PyVal.int 1]⟩

/-- `str.lower` output is never in `[A-Z]`. -/
theorem lowerCode_not_upper (c : Nat) : isUpperCode (lowerCode c) = false := by
  simp only [lowerCode, isUpperCode] at *
  split <;> rename_i h
  · simp_all
    omega
  · simp_all

/-- Members of `dropWhile` come from the original list. -/
theorem mem_of_mem_dropWhile (p : Nat → Bool) (l : List Nat) (c : Nat)
    (h : c ∈ l.dropWhile p) : c ∈ l := by
  induction l with
  | nil => simp [List.dropWhile] at h
  | cons a l ih =>
    rw [List.dropWhile_cons] at h
    split at h
    · exact List.mem_cons_of_mem a (ih h)
    · exact h

/-- The head surviving `dropWhile` fails the predicate. -/
theorem head_dropWhile_not (p : Nat → Bool) (l : List Nat) (c : Nat)
    (h : (l.dropWhile p).head? = some c) : p c = false := by
  induction l with
  | nil => simp [List.dropWhile] at h
  | cons a l ih =>
    rw [List.dropWhile_cons] at h
    split at h
    · exact ih h
    · rename_i hpa
      simp only [List.head?_cons, Option.some.injEq] at h
      subst h
      exact Bool.eq_false_iff.mpr hpa

/-- `dropWhile` is idempotent. -/
theorem dropWhile_idem (p : Nat → Bool) (l : List Nat) :
    (l.dropWhile p).dropWhile p = l.dropWhile p := by
  induction l with
  | nil => rfl
  | cons a l ih =>
    rw [List.dropWhile_cons]
    split
    · exact ih
    · rw [List.dropWhile_cons]
      simp [*]

/-- The substitution regex matches nothing in a string without `[A-Z]`. -/
theorem camel_sub_id (s : List Nat) (h : ∀ c ∈ s, isUpperCode c = false) :
    ∀ prev, camel_sub prev s = s := by
  induction s with
  | nil => intro prev; rfl
  | cons a s ih =>
    intro prev
    have ha : isUpperCode a = false := h a (List.mem_cons_self a s)
    simp only [camel_sub, ha, Bool.false_and, if_neg, List.nil_append,
      Bool.false_eq_true, ↓reduceIte, List.singleton_append, List.cons.injEq, true_and]
    exact ih (fun c hc => h c (List.mem_cons_of_mem a hc)) (some a)

/-- `str.lower` fixes a string without `[A-Z]`. -/
theorem map_lower_id (s : List Nat) (h : ∀ c ∈ s, isUpperCode c = false) :
    s.map lowerCode = s := by
  induction s with
  | nil => rfl
  | cons a s ih =>
    have ha : isUpperCode a = false := h a (List.mem_cons_self a s)
    simp [lowerCode, ha, ih (fun c hc => h c (List.mem_cons_of_mem a hc))]

/-- The MRO loop skips every base whose dictionary lacks `__tablename__`. -/
theorem mro_walk_append_none (P Q : List (ClsDesc × Bool))
    (h : ∀ x ∈ P, (Prod.fst x).tablename = none) :
    mro_walk (P ++ Q) = mro_walk Q := by
  induction P with
  | nil => rfl
  | cons x P ih =>
    obtain ⟨base, isSelf⟩ := x
    have hx : base.tablename = none := h (base, isSelf) (List.mem_cons_self _ _)
    simp only [List.cons_append, mro_walk, hx]
    exact ih (fun y hy => h y (List.mem_cons_of_mem _ hy))

/-- C1 counterexample: the claim states that when the class itself provides no
primary-key field `id`, the hook returns `None` regardless of other
conditions.  `childDesc` has no `id` entry of its own, yet its ancestor
`parentDesc` does, `hasattr` resolves through inheritance, and the hook
returns the generated identifier `"child"`. -/
theorem c1_tablename_hook_counterexample :
    childDesc.idAttr = none ∧
    NameMixin_tablename childDesc [parentDesc] = some (strCodes "child") :=
  ⟨rfl, by decide⟩

/-- C1 (amended): the hook produces the generated snake_case identifier of the
candidate class name exactly when attribute lookup through the MRO — the class
itself or, failing that, the nearest ancestor declaring `id` — finds an `id`
whose `primary_key` is truthy; otherwise it returns `None`. -/
theorem c1_tablename_hook_mro_lookup (cls : ClsDesc) (ancestors : List ClsDesc) :
    (lookup_id (cls :: ancestors) = some true →
      NameMixin_tablename cls ancestors = some (camel_to_snake_case cls.name)) ∧
    (lookup_id (cls :: ancestors) ≠ some true →
      NameMixin_tablename cls ancestors = none) := by
  refine ⟨fun h => ?_, fun h => ?_⟩
  · simp [NameMixin_tablename, h]
  · rcases hl : lookup_id (cls :: ancestors) with _ | b
    · simp [NameMixin_tablename, hl]
    · cases b
      · simp [NameMixin_tablename, hl]
      · exact absurd hl h

/-- C1 witness: `UserAccount` with its own primary-key `id` and no identifier
from any ancestor yields the generated identifier `"user_account"`. -/
theorem c1_tablename_hook_mro_lookup_witness :
    lookup_id (userAccountDesc :: []) = some true ∧
    NameMixin_tablename userAccountDesc [] = some (strCodes "user_account") := by
  refine ⟨rfl, ?_⟩
  have h := (c1_tablename_hook_mro_lookup userAccountDesc []).1 rfl
  rw [h]
  decide

/-- C2: past the initial screen, when the first class of the MRO that has a
`__tablename__` entry in its own dictionary holds a concrete value there, the
decision equals: that class is not the candidate itself, and is not abstract,
and is a mapped type; the bases after it are never consulted (the result does
not depend on `post`). -/
theorem c2_first_concrete_decl (cls d : ClsDesc) (ancestors pre post : List ClsDesc)
    (habs : cls.isAbstract = false)
    (hmapped : (ancestors.any fun a => a.isMapped) = true)
    (hchain : cls :: ancestors = pre ++ d :: post)
    (hpre : ∀ c ∈ pre, c.tablename = none)
    (hd : d.tablename = some TMDecl.concreteVal) :
    should_set_tablename cls ancestors =
      (!pre.isEmpty && (!d.isAbstract && d.isMapped)) := by
  unfold should_set_tablename
  rw [if_neg (by simp [habs, hmapped])]
  cases pre with
  | nil =>
    simp only [List.nil_append, List.cons.injEq] at hchain
    obtain ⟨rfl, rfl⟩ := hchain
    simp [mro_walk, hd]
  | cons p pre' =>
    simp only [List.cons_append, List.cons.injEq] at hchain
    obtain ⟨rfl, rfl⟩ := hchain
    have hcls : cls.tablename = none := hpre cls (List.mem_cons_self _ _)
    simp only [mro_walk, hcls, List.map_append, List.map_cons]
    rw [mro_walk_append_none (pre'.map fun a => (a, false)) _ ?_]
    · simp only [mro_walk, hd, List.isEmpty_cons, Bool.not_false, Bool.true_and]
      cases d.isAbstract <;> cases d.isMapped <;> rfl
    · intro x hx
      rcases List.mem_map.1 hx with ⟨a, ha, rfl⟩
      exact hpre a (List.mem_cons_of_mem _ ha)

/-- C2 witness: a candidate whose nearest declaring ancestor is a concrete,
non-abstract, mapped class other than itself gets a generated name. -/
theorem c2_first_concrete_decl_witness :
    should_set_tablename childDesc [namedParentDesc] =
      (!([childDesc].isEmpty) &&
        (!namedParentDesc.isAbstract && namedParentDesc.isMapped)) :=
  c2_first_concrete_decl childDesc namedParentDesc [namedParentDesc] [childDesc] []
    rfl (by decide) rfl (by decide) rfl

/-- C3: a candidate marked abstract, or one none of whose proper ancestors is
a mapped type, gets `false` from the decision procedure. -/
theorem c3_abstract_or_unmapped_false (cls : ClsDesc) (ancestors : List ClsDesc)
    (h : cls.isAbstract = true ∨ ∀ a ∈ ancestors, a.isMapped = false) :
    should_set_tablename cls ancestors = false := by
  unfold should_set_tablename
  rcases h with h | h
  · simp [h]
  · have hany : (ancestors.any fun a => a.isMapped) = false := by
      simp only [List.any_eq_false]
      intro a ha
      simp [h a ha]
    simp [hany]

/-- C3 witness: an abstract candidate, and a candidate with only an unmapped
ancestor, both get `false`. -/
theorem c3_abstract_or_unmapped_false_witness :
    should_set_tablename abstractDesc [parentDesc] = false ∧
    should_set_tablename childDesc [unmappedDesc] = false :=
  ⟨c3_abstract_or_unmapped_false abstractDesc [parentDesc] (Or.inl rfl),
   c3_abstract_or_unmapped_false childDesc [unmappedDesc] (Or.inr (by decide))⟩

/-- C4: a candidate with a `declared_attr` entry for `__tablename__` in its
own dictionary gets `false`, whatever the ancestors declare. -/
theorem c4_deferred_decl_false (cls : ClsDesc) (ancestors : List ClsDesc)
    (h : cls.tablename = some TMDecl.deferredAttr) :
    should_set_tablename cls ancestors = false := by
  unfold should_set_tablename
  split
  · rfl
  · simp [mro_walk, h]

/-- C4 witness: a deferred declaration on the candidate itself wins over a
mapped ancestor with a primary key. -/
theorem c4_deferred_decl_false_witness :
    should_set_tablename deferredDesc [parentDesc] = false :=
  c4_deferred_decl_false deferredDesc [parentDesc] rfl

/-- C5: a candidate that is not abstract, has a mapped ancestor, and whose
whole MRO has no `__tablename__` entry in any dictionary, gets `true`. -/
theorem c5_no_decl_true (cls : ClsDesc) (ancestors : List ClsDesc)
    (habs : cls.isAbstract = false)
    (hmapped : (ancestors.any fun a => a.isMapped) = true)
    (hnone : ∀ c ∈ cls :: ancestors, c.tablename = none) :
    should_set_tablename cls ancestors = true := by
  unfold should_set_tablename
  rw [if_neg (by simp [habs, hmapped])]
  have h := mro_walk_append_none
    ((cls, true) :: ancestors.map fun a => (a, false)) [] ?_
  · simpa using h
  · intro x hx
    rcases List.mem_cons.1 hx with rfl | hx
    · exact hnone cls (List.mem_cons_self _ _)
    · rcases List.mem_map.1 hx with ⟨a, ha, rfl⟩
      exact hnone a (List.mem_cons_of_mem _ ha)

/-- C5 witness: a plain subclass of a mapped parent, with no name declared
anywhere, gets a generated name. -/
theorem c5_no_decl_true_witness :
    should_set_tablename childDesc [parentDesc] = true :=
  c5_no_decl_true childDesc [parentDesc] rfl (by decide) (by decide)

/-- C6: the four case-conversion examples. -/
theorem c6_case_conversion_examples :
    camel_to_snake_case (strCodes "User") = strCodes "user" ∧
    camel_to_snake_case (strCodes "UserAccount") = strCodes "user_account" ∧
    camel_to_snake_case (strCodes "HTTPServer") = strCodes "http_server" ∧
    camel_to_snake_case (strCodes "ABTest2Variant") = strCodes "ab_test2_variant" :=
  ⟨by decide, by decide, by decide, by decide⟩

/-- C7: on a string of lowercase letters, digits and underscores the converter
is idempotent. -/
theorem c7_idempotent_on_snake (s : PyStr)
    (h : ∀ c ∈ s, isLowerCode c = true ∨ isDigitCode c = true ∨ c = 95) :
    camel_to_snake_case (camel_to_snake_case s) = camel_to_snake_case s := by
  have hnu : ∀ c ∈ s, isUpperCode c = false := by
    intro c hc
    rw [Bool.eq_false_iff]
    intro hu
    simp only [isUpperCode, Bool.and_eq_true, decide_eq_true_eq] at hu
    rcases h c hc with h1 | h1 | h1
    · simp only [isLowerCode, Bool.and_eq_true, decide_eq_true_eq] at h1
      omega
    · simp only [isDigitCode, Bool.and_eq_true, decide_eq_true_eq] at h1
      omega
    · omega
  have h1 : camel_to_snake_case s = s.dropWhile fun c => c == 95 := by
    unfold camel_to_snake_case
    rw [camel_sub_id s hnu none, map_lower_id s hnu]
  have hsub : ∀ c ∈ s.dropWhile fun c => c == 95, isUpperCode c = false :=
    fun c hc => hnu c (mem_of_mem_dropWhile _ s c hc)
  rw [h1]
  unfold camel_to_snake_case
  rw [camel_sub_id _ hsub none, map_lower_id _ hsub, dropWhile_idem]

/-- C7 witness: idempotence at the already-snake-cased string `foo_bar2`. -/
theorem c7_idempotent_on_snake_witness :
    (∀ c ∈ strCodes "foo_bar2",
      isLowerCode c = true ∨ isDigitCode c = true ∨ c = 95) ∧
    camel_to_snake_case (camel_to_snake_case (strCodes "foo_bar2")) =
      camel_to_snake_case (strCodes "foo_bar2") :=
  ⟨by decide, c7_idempotent_on_snake (strCodes "foo_bar2") (by decide)⟩

/-- C8: the formatter renders transient instances as
`<Name (transient handle)>`, pending ones as `<Name (pending handle)>`, and
persisted ones as the class name followed by the comma-joined string forms of
the identity tuple, so `Name` with key `(1, "a")` renders as `<Name 1, a>`. -/
theorem c8_repr_format :
    (∀ (n : String) (tn : Option String) (h : Nat),
      Base_repr ⟨n, tn, InstState.transient h⟩ =
        "<" ++ n ++ " " ++ ("(transient " ++ toString h ++ ")") ++ ">") ∧
    (∀ (n : String) (tn : Option String) (h : Nat),
      Base_repr ⟨n, tn, InstState.pending h⟩ =
        "<" ++ n ++ " " ++ ("(pending " ++ toString h ++ ")") ++ ">") ∧
    (∀ (n : String) (tn : Option String) (ks : List PyVal),
      Base_repr ⟨n, tn, InstState.persisted ks⟩ =
        "<" ++ n ++ " " ++ String.intercalate ", " (ks.map pyStr) ++ ">") ∧
    Base_repr ⟨"Name", none, InstState.persisted [PyVal.int 1, PyVal.str "a"]⟩ =
      "<Name 1, a>" ∧
    Base_repr ⟨"User", some "user", InstState.transient 7⟩ = "<User (transient 7)>" ∧
    Base_repr ⟨"User", some "user", InstState.pending 7⟩ = "<User (pending 7)>" :=
  ⟨fun _ _ _ => rfl, fun _ _ _ => rfl, fun _ _ _ => rfl,
   by decide, by decide, by decide⟩

/-- C9: the formatter output depends only on the class name and the
persistence state, never on the table name of the class. -/
theorem c9_repr_ignores_tablename (e1 e2 : Entity)
    (hn : e1.className = e2.className) (hs : e1.state = e2.state) :
    Base_repr e1 = Base_repr e2 := by
  unfold Base_repr
  rw [hn, hs]

/-- C9 witness: two persisted instances whose classes map to different tables
render identically. -/
theorem c9_repr_ignores_tablename_witness :
    entityA.className = entityB.className ∧ entityA.state = entityB.state ∧
    entityA.tablename ≠ entityB.tablename ∧
    Base_repr entityA = Base_repr entityB :=
  ⟨rfl, rfl, by decide, c9_repr_ignores_tablename entityA entityB rfl rfl⟩

/-- C10: the converter is total — on every input, the empty string included,
the output has no `[A-Z]` code point and does not begin with an underscore. -/
theorem c10_camel_total_safety (s : PyStr) :
    ((camel_to_snake_case s).all fun c => !isUpperCode c) = true ∧
    (camel_to_snake_case s).head? ≠ some 95 := by
  constructor
  · rw [List.all_eq_true]
    intro c hc
    unfold camel_to_snake_case at hc
    have hc2 : c ∈ (camel_sub none s).map lowerCode :=
      mem_of_mem_dropWhile _ _ c hc
    rcases List.mem_map.1 hc2 with ⟨x, _, rfl⟩
    simp [lowerCode_not_upper]
  · intro h
    unfold camel_to_snake_case at h
    have h95 := head_dropWhile_not (fun c => c == 95) _ 95 h
    simp at h95

/-- C10 witness: the safety conclusions at the empty string and at
`HTTPServer`. -/
theorem c10_camel_total_safety_witness :
    (((camel_to_snake_case []).all fun c => !isUpperCode c) = true ∧
      (camel_to_snake_case []).head? ≠ some 95) ∧
    (((camel_to_snake_case (strCodes "HTTPServer")).all fun c => !isUpperCode c) = true ∧
      (camel_to_snake_case (strCodes "HTTPServer")).head? ≠ some 95) :=
  ⟨c10_camel_total_safety [], c10_camel_total_safety (strCodes "HTTPServer")⟩
